import Mathlib

/-!
Verification of the room/guess reconciliation layer of the sub-accounts
front-end (TombSecretsProvider, VaultWarsEventHandler, GameScreen, JoinRoom).

The definitions below are a shallow embedding of the TypeScript source:

* `Guess` mirrors the `Guess` interface (turnIndex, digits, optional result,
  timestamp, optional txHash, optional pending).  An `Option` field models an
  optional key of the TypeScript object; `none` stands for an absent key.
* `addGuess`, `removeGuess`, `setCurrentRoom` mirror the provider's room state
  management callbacks.
* `mergeResult` / `mergeResultFallback` mirror the two `setRoomGuesses`
  updates inside `handleResultComputed` (probe fetch succeeded / failed).
* `awaitConfirmation` mirrors the receipt-polling loop shared by `createRoom`,
  `joinRoom` and `submitGuess`.
* `PollerState`, `stopListening`, `timerFire` mirror the liveness-flag guarded
  polling of `VaultWarsEventHandler`.
* `buildInvitationLink` / `joinRoomPrefill` mirror the invitation link
  construction in `GameScreen.copyInvitationLink` and the query-parameter
  reading in `JoinRoom`.
-/

/-- The `signedResult` payload of a decoded `ResultComputed` event
(`{breaches, signals, signature}` in the event handler service). -/
structure SignedResult where
  breaches : Nat
  signals : Nat
  signature : String
deriving DecidableEq, Repr

/-- A guess result as stored on a `Guess` (`{breached, injured}`). -/
structure GuessResult where
  breached : Nat
  injured : Nat
deriving DecidableEq, Repr

/-- The `Guess` interface of the source.  `result`, `txHash` and `pending`
are optional keys of the TypeScript object; `none` models an absent key. -/
structure Guess where
  turnIndex : Nat
  digits : List String
  result : Option GuessResult := none
  timestamp : Nat
  txHash : Option String := none
  pending : Option Bool := none
deriving DecidableEq, Repr

/-- A decoded `ResultComputed` event as passed to `handleResultComputed`. -/
structure ResultEvent where
  roomId : String
  turnIndex : Nat
  submitter : String
  isWin : Bool
  signedResult : Option SignedResult := none
deriving DecidableEq, Repr

/-- The result stored on a guess by `handleResultComputed`:
`event.signedResult ? {breached: breaches, injured: signals} : undefined`. -/
def resultOfEvent (e : ResultEvent) : Option GuessResult :=
  e.signedResult.map (fun sr => { breached := sr.breaches, injured := sr.signals })

/-- `prev.map`'s element update in the reconciler: apply `upd` exactly to the
entries whose turn index matches. -/
def updAt (t : Nat) (upd : Guess → Guess) (g : Guess) : Guess :=
  if g.turnIndex == t then upd g else g

/-- The common update shape of the reconciler: `prev.find` an entry with the
given turn index; if found, `prev.map` the update over every matching entry,
otherwise append the new entry. -/
def upsertByTurn (t : Nat) (upd : Guess → Guess) (newEntry : Guess)
    (prev : List Guess) : List Guess :=
  match prev.find? (fun g => g.turnIndex == t) with
  | some _ => prev.map (updAt t upd)
  | none => prev ++ [newEntry]

/-- JavaScript object spread `{...g, ...guess}` for two `Guess` objects:
mandatory keys are overwritten, an optional key overwrites only when present
(`some`) in the right operand. -/
def spreadMerge (g guess : Guess) : Guess :=
  { turnIndex := guess.turnIndex
    digits := guess.digits
    timestamp := guess.timestamp
    result := guess.result.orElse (fun _ => g.result)
    txHash := guess.txHash.orElse (fun _ => g.txHash)
    pending := guess.pending.orElse (fun _ => g.pending) }

/-- `addGuess` of the provider: if an entry at the guess's turn index exists,
spread-merge the new guess over it, else append the guess. -/
def addGuess (guess : Guess) (prev : List Guess) : List Guess :=
  upsertByTurn guess.turnIndex (fun g => spreadMerge g guess) guess prev

/-- `removeGuess` of the provider:
`prev.filter((g) => g.turnIndex !== turnIndex)`. -/
def removeGuess (turnIndex : Nat) (prev : List Guess) : List Guess :=
  prev.filter (fun g => g.turnIndex != turnIndex)

/-- The `setRoomGuesses` update of `handleResultComputed` when the `getProbe`
fetch succeeded: an existing entry at the event's turn index gets the fetched
digits, the event's result and `pending: false`; otherwise a fresh non-pending
entry is appended. -/
def mergeResult (e : ResultEvent) (guessDigits : List String) (now : Nat)
    (prev : List Guess) : List Guess :=
  upsertByTurn e.turnIndex
    (fun g => { g with digits := guessDigits, result := resultOfEvent e,
                       pending := some false })
    { turnIndex := e.turnIndex, digits := guessDigits, result := resultOfEvent e,
      timestamp := now, txHash := none, pending := some false }
    prev

/-- The fallback `setRoomGuesses` update of `handleResultComputed` when the
`getProbe` fetch failed: digits are left alone (or empty for a new entry). -/
def mergeResultFallback (e : ResultEvent) (now : Nat)
    (prev : List Guess) : List Guess :=
  upsertByTurn e.turnIndex
    (fun g => { g with result := resultOfEvent e, pending := some false })
    { turnIndex := e.turnIndex, digits := [], result := resultOfEvent e,
      timestamp := now, txHash := none, pending := some false }
    prev

/-- Room state handled by `setCurrentRoom` (the `currentRoomId` and
`roomGuesses` React states). -/
structure RoomViewState where
  currentRoomId : Option String
  roomGuesses : List Guess
deriving DecidableEq, Repr

/-- JavaScript falsiness of `roomId : string | null`: `null` or `""`. -/
def roomIdFalsy : Option String → Bool
  | none => true
  | some s => s == ""

/-- `setCurrentRoom` of the provider: always stores the new id and clears the
guess list exactly when the new id is falsy (`if (!roomId) setRoomGuesses([])`). -/
def setCurrentRoom (roomId : Option String) (s : RoomViewState) : RoomViewState :=
  { currentRoomId := roomId
    roomGuesses := if roomIdFalsy roomId then [] else s.roomGuesses }

/-! ### Helper lemmas about `upsertByTurn` -/

lemma find?_eq_some_of_exists {p : Guess → Bool} {l : List Guess}
    (h : ∃ x ∈ l, p x = true) : ∃ y, l.find? p = some y := by
  cases hf : l.find? p with
  | some y => exact ⟨y, rfl⟩
  | none =>
    obtain ⟨x, hx, hpx⟩ := h
    have := List.find?_eq_none.mp hf x hx
    simp [hpx] at this

lemma map_id_of_all {f : Guess → Guess} :
    ∀ {l : List Guess}, (∀ x ∈ l, f x = x) → l.map f = l := by
  intro l h
  induction l with
  | nil => rfl
  | cons a l ih =>
    simp only [List.map_cons, h a (by simp)]
    rw [ih (fun x hx => h x (by simp [hx]))]

lemma updAt_updAt {t : Nat} {upd : Guess → Guess}
    (hkeep : ∀ g, (upd g).turnIndex = g.turnIndex)
    (hidem : ∀ g, upd (upd g) = upd g) (g : Guess) :
    updAt t upd (updAt t upd g) = updAt t upd g := by
  unfold updAt
  by_cases h : (g.turnIndex == t) = true
  · rw [if_pos h]
    have h2 : ((upd g).turnIndex == t) = true := by rw [hkeep]; exact h
    rw [if_pos h2, hidem]
  · rw [if_neg h, if_neg h]

lemma updAt_turnIndex {t : Nat} {upd : Guess → Guess}
    (hkeep : ∀ g, (upd g).turnIndex = g.turnIndex) (g : Guess) :
    (updAt t upd g).turnIndex = g.turnIndex := by
  unfold updAt
  by_cases h : (g.turnIndex == t) = true
  · rw [if_pos h, hkeep]
  · rw [if_neg h]

lemma upsertByTurn_idem (t : Nat) (upd : Guess → Guess) (n1 n2 : Guess)
    (l : List Guess)
    (hkeep : ∀ g, (upd g).turnIndex = g.turnIndex)
    (hidem : ∀ g, upd (upd g) = upd g)
    (hn1 : upd n1 = n1) (hn1t : n1.turnIndex = t) :
    upsertByTurn t upd n2 (upsertByTurn t upd n1 l) =
      upsertByTurn t upd n1 l := by
  unfold upsertByTurn
  cases hf : l.find? (fun g => g.turnIndex == t) with
  | some g0 =>
    have hg0mem : g0 ∈ l := List.mem_of_find?_eq_some hf
    have hg0p : (g0.turnIndex == t) = true := by
      have := List.find?_some hf
      exact this
    have hmem : updAt t upd g0 ∈ l.map (updAt t upd) :=
      List.mem_map_of_mem _ hg0mem
    have hp2 : ((updAt t upd g0).turnIndex == t) = true := by
      rw [updAt_turnIndex hkeep]; exact hg0p
    obtain ⟨y, hy⟩ :=
      @find?_eq_some_of_exists (fun g => g.turnIndex == t) _ ⟨_, hmem, hp2⟩
    rw [hy]
    rw [List.map_map]
    have hcomp : updAt t upd ∘ updAt t upd = updAt t upd :=
      funext (updAt_updAt hkeep hidem)
    rw [hcomp]
  | none =>
    have hall := List.find?_eq_none.mp hf
    have hn1p : (n1.turnIndex == t) = true := by simp [hn1t]
    have hmem : n1 ∈ l ++ [n1] := by simp
    obtain ⟨y, hy⟩ :=
      @find?_eq_some_of_exists (fun g => g.turnIndex == t) _ ⟨n1, hmem, hn1p⟩
    rw [hy]
    rw [List.map_append]
    have h1 : l.map (updAt t upd) = l :=
      map_id_of_all (fun x hx => by unfold updAt; rw [if_neg (hall x hx)])
    have h2 : [n1].map (updAt t upd) = [n1] := by
      simp only [List.map_cons, List.map_nil]
      unfold updAt
      rw [if_pos hn1p, hn1]
    rw [h1, h2]

/-- C1: applying the `ResultComputed` handler's merge twice with the same
turn index, the same result payload and the same fetched digits yields a
guess list identical to applying it once — on the main path and on the
fetch-failure fallback path alike. -/
theorem mergeResult_idempotent (e : ResultEvent) (d : List String)
    (now1 now2 : Nat) (prev : List Guess) :
    mergeResult e d now2 (mergeResult e d now1 prev) = mergeResult e d now1 prev ∧
    mergeResultFallback e now2 (mergeResultFallback e now1 prev) =
      mergeResultFallback e now1 prev := by
  constructor
  · exact upsertByTurn_idem e.turnIndex _ _ _ prev
      (fun g => rfl) (fun g => rfl) rfl rfl
  · exact upsertByTurn_idem e.turnIndex _ _ _ prev
      (fun g => rfl) (fun g => rfl) rfl rfl

/-! ### Receipt polling (`createRoom`, `joinRoom`, `submitGuess`) -/

/-- The body of the receipt-wait loop: starting at attempt number `attempt`
with `fuel` attempts left, return the first receipt the provider reports, or
`none` when every attempt reports `null`. -/
def pollForReceipt {α : Type} (poll : Nat → Option α) : Nat → Nat → Option α
  | _, 0 => none
  | attempt, fuel + 1 =>
    match poll attempt with
    | some r => some r
    | none => pollForReceipt poll (attempt + 1) fuel

/-- The receipt-wait loop shared by `createRoom`, `joinRoom` and
`submitGuess`: up to `maxAttempts` polls, then
`throw new Error("Transaction receipt not found after timeout")`. -/
def awaitConfirmation {α : Type} (poll : Nat → Option α)
    (maxAttempts : Nat) : Except String α :=
  match pollForReceipt poll 0 maxAttempts with
  | some r => Except.ok r
  | none => Except.error "Transaction receipt not found after timeout"

/-- `maxAttempts` in `createRoom`. -/
def createRoomMaxAttempts : Nat := 30

/-- `maxAttempts` in `joinRoom`. -/
def joinRoomMaxAttempts : Nat := 30

/-- `maxAttempts` in `submitGuess`. -/
def submitGuessMaxAttempts : Nat := 30

/-- The `setTimeout` delay between receipt polls in `createRoom`, in ms. -/
def createRoomPollIntervalMs : Nat := 1000

/-- The `setTimeout` delay between receipt polls in `joinRoom`, in ms. -/
def joinRoomPollIntervalMs : Nat := 1000

/-- The `setTimeout` delay between receipt polls in `submitGuess`, in ms. -/
def submitGuessPollIntervalMs : Nat := 1000

/-- The receipt wait of `createRoom`. -/
def createRoomAwaitReceipt {α : Type} (poll : Nat → Option α) : Except String α :=
  awaitConfirmation poll createRoomMaxAttempts

/-- The receipt wait of `joinRoom`. -/
def joinRoomAwaitReceipt {α : Type} (poll : Nat → Option α) : Except String α :=
  awaitConfirmation poll joinRoomMaxAttempts

/-- The receipt wait of `submitGuess`. -/
def submitGuessAwaitReceipt {α : Type} (poll : Nat → Option α) : Except String α :=
  awaitConfirmation poll submitGuessMaxAttempts

/-! ### The event poller's liveness flag (`VaultWarsEventHandler`) -/

/-- The poller's mutable state: the `isListening` liveness flag and whether
the recurring `setInterval` timer is still scheduled. -/
structure PollerState where
  isListening : Bool
  timerActive : Bool
deriving DecidableEq, Repr

/-- `stopListening` of `VaultWarsEventHandler`: early-return when not
listening, otherwise clear the interval and drop the flag. -/
def stopListening (s : PollerState) : PollerState :=
  if s.isListening = false then s
  else { isListening := false, timerActive := false }

/-- One firing of the (possibly stale) interval callback.  The callback
checks `isListening` at the top of the cycle: when the flag is down it clears
the interval and returns without scanning; otherwise it runs
`checkForNewEvents`, which dispatches decoded events to the handlers.  The
second component records whether a poll cycle ran (and so whether any
handler could be invoked). -/
def timerFire (s : PollerState) : PollerState × Bool :=
  if s.isListening then (s, true)
  else ({ s with timerActive := false }, false)

/-- The poller state after `n` further firings of the interval callback. -/
def firesFrom (s : PollerState) : Nat → PollerState
  | 0 => s
  | n + 1 => (timerFire (firesFrom s n)).1

/-! ### Turn attribution and whose-turn computation (`GameScreen`) -/

/-- `currentTurnIndex = roomGuesses.length`. -/
def currentTurnIndex (roomGuesses : List Guess) : Nat := roomGuesses.length

/-- `isPlayerTurn`: the creator moves on even turn counts, the opponent on
odd ones. -/
def isPlayerTurn (isPlayerCreator : Bool) (roomGuesses : List Guess) : Bool :=
  if isPlayerCreator then currentTurnIndex roomGuesses % 2 == 0
  else currentTurnIndex roomGuesses % 2 == 1

/-- `playerGuesses`: the guesses `GameScreen` shows as the local player's. -/
def playerGuesses (isPlayerCreator : Bool) (roomGuesses : List Guess) :
    List Guess :=
  roomGuesses.filter (fun g =>
    if isPlayerCreator then g.turnIndex % 2 == 0 else g.turnIndex % 2 == 1)

/-- `opponentGuesses`: the guesses `GameScreen` shows as the opponent's. -/
def opponentGuesses (isPlayerCreator : Bool) (roomGuesses : List Guess) :
    List Guess :=
  roomGuesses.filter (fun g =>
    if isPlayerCreator then g.turnIndex % 2 == 1 else g.turnIndex % 2 == 0)

/-- The guesses attributed to the room creator, from either player's view:
the viewer's own list when the viewer is the creator, the opponent list
otherwise. -/
def attributedToCreator (isPlayerCreator : Bool) (roomGuesses : List Guess) :
    List Guess :=
  if isPlayerCreator then playerGuesses isPlayerCreator roomGuesses
  else opponentGuesses isPlayerCreator roomGuesses

/-- The guesses attributed to the opponent, from either player's view. -/
def attributedToOpponent (isPlayerCreator : Bool) (roomGuesses : List Guess) :
    List Guess :=
  if isPlayerCreator then opponentGuesses isPlayerCreator roomGuesses
  else playerGuesses isPlayerCreator roomGuesses

/-! ### `handleSubmit`'s optimistic insert and rollback (`GameScreen`) -/

/-- The optimistic entry `handleSubmit` builds before submitting:
`{turnIndex: currentTurnIndex, digits, timestamp, pending: true}`. -/
def optimisticGuess (digits : List String) (ts : Nat) (roomGuesses : List Guess) :
    Guess :=
  { turnIndex := currentTurnIndex roomGuesses, digits := digits,
    timestamp := ts, pending := some true }

/-- What the guess list holds after `handleSubmit` adds the optimistic entry
and the submission throws, triggering `removeGuess(currentTurnIndex)`. -/
def submitRollback (digits : List String) (ts : Nat) (roomGuesses : List Guess) :
    List Guess :=
  removeGuess (currentTurnIndex roomGuesses)
    (addGuess (optimisticGuess digits ts roomGuesses) roomGuesses)

/-! ### Invitation link round-trip (`GameScreen.copyInvitationLink`, `JoinRoom`) -/

/-- Split a character list at every occurrence of `sep` (the field split of a
query string at `&`). -/
def splitOnChar (sep : Char) : List Char → List (List Char)
  | [] => [[]]
  | a :: rest =>
    if a = sep then [] :: splitOnChar sep rest
    else
      match splitOnChar sep rest with
      | [] => [[a]]
      | h :: tl => (a :: h) :: tl

/-- Split one `key=value` field of a query string at its first `=`. -/
def splitKV (field : List Char) : List Char × List Char :=
  (field.takeWhile (fun c => c != '='), (field.dropWhile (fun c => c != '=')).drop 1)

/-- `URLSearchParams.get(name)`: the value of the first field whose key is
`name`, or `none`. -/
def getParam (name : List Char) (query : List Char) : Option (List Char) :=
  (splitOnChar '&' query).findSome? (fun f =>
    let kv := splitKV f
    if kv.1 = name then some kv.2 else none)

/-- `window.location.search` without its leading `?`: the part of the URL
after the first `?`, truncated at the first `#`. -/
def queryOf (url : List Char) : List Char :=
  ((url.dropWhile (fun c => c != '?')).drop 1).takeWhile (fun c => c != '#')

/-- `copyInvitationLink` of `GameScreen`:
`` `${window.location.origin}/join?room=${roomId}` ``. -/
def buildInvitationLink (origin roomId : List Char) : List Char :=
  origin ++ ("/join?room=".data) ++ roomId

/-- The `JoinRoom` page's auto-fill of its room id field:
`searchParams.get("room") || searchParams.get("roomId")`. -/
def joinRoomPrefill (url : List Char) : Option (List Char) :=
  (getParam ("room".data) (queryOf url)).orElse
    (fun _ => getParam ("roomId".data) (queryOf url))

/-! ### Operation sequences over the reconciled guess list -/

/-- One reconciler operation on the active room's guess list. -/
inductive ReconcilerOp where
  | add (guess : Guess)
  | mergeMain (e : ResultEvent) (guessDigits : List String) (now : Nat)
  | mergeFallback (e : ResultEvent) (now : Nat)
  | remove (turnIndex : Nat)
deriving DecidableEq, Repr

/-- Apply one reconciler operation. -/
def applyOp (l : List Guess) : ReconcilerOp → List Guess
  | .add g => addGuess g l
  | .mergeMain e d now => mergeResult e d now l
  | .mergeFallback e now => mergeResultFallback e now l
  | .remove t => removeGuess t l

/-- Apply a sequence of reconciler operations, oldest first. -/
def applyOps (l : List Guess) : List ReconcilerOp → List Guess
  | [] => l
  | op :: ops => applyOps (applyOp l op) ops

/-- The confirmed-entry invariant at turn `t` with result `r`: every stored
entry at that turn index carries result `r` and `pending: false`. -/
def confirmedAt (t : Nat) (r : GuessResult) (l : List Guess) : Prop :=
  ∀ g ∈ l, g.turnIndex = t → (g.result = some r ∧ g.pending = some false)

/-- Operations that do not touch a confirmed entry at turn `t` against its
result `r`: no `addGuess` at that turn index, and any result event for that
turn index carries exactly the result `r`. -/
def opSafeFor (t : Nat) (r : GuessResult) : ReconcilerOp → Prop
  | .add g => g.turnIndex ≠ t
  | .mergeMain e _ _ => e.turnIndex = t → resultOfEvent e = some r
  | .mergeFallback e _ => e.turnIndex = t → resultOfEvent e = some r
  | .remove _ => True

/-! ### Membership lemmas for `upsertByTurn` -/

lemma mem_map_updAt {t : Nat} {upd : Guess → Guess} {l : List Guess} {x : Guess}
    (hx : x ∈ l.map (updAt t upd)) :
    ∃ y ∈ l, ((y.turnIndex == t) = true ∧ x = upd y) ∨
      ((y.turnIndex == t) = false ∧ x = y) := by
  obtain ⟨y, hy, hxy⟩ := List.mem_map.mp hx
  refine ⟨y, hy, ?_⟩
  by_cases h : (y.turnIndex == t) = true
  · left
    refine ⟨h, ?_⟩
    rw [← hxy]
    unfold updAt
    rw [if_pos h]
  · right
    refine ⟨by simpa using h, ?_⟩
    rw [← hxy]
    unfold updAt
    rw [if_neg h]

lemma mem_upsertByTurn {t : Nat} {upd : Guess → Guess} {n : Guess}
    {l : List Guess} {x : Guess} (hx : x ∈ upsertByTurn t upd n l) :
    (∃ y ∈ l, ((y.turnIndex == t) = true ∧ x = upd y) ∨
      ((y.turnIndex == t) = false ∧ x = y)) ∨ x = n := by
  unfold upsertByTurn at hx
  split at hx
  · exact Or.inl (mem_map_updAt hx)
  · rename_i hf
    rcases List.mem_append.mp hx with h | h
    · refine Or.inl ⟨x, h, Or.inr ⟨?_, rfl⟩⟩
      have := List.find?_eq_none.mp hf x h
      simpa using this
    · exact Or.inr (by simpa using h)

lemma upsertByTurn_of_none {t : Nat} {upd : Guess → Guess} {n : Guess}
    {l : List Guess} (h : ∀ x ∈ l, x.turnIndex ≠ t) :
    upsertByTurn t upd n l = l ++ [n] := by
  unfold upsertByTurn
  have hf : l.find? (fun g => g.turnIndex == t) = none :=
    List.find?_eq_none.mpr (fun x hx => by simpa using h x hx)
  rw [hf]

lemma upsertByTurn_of_some {t : Nat} {upd : Guess → Guess} {n : Guess}
    {l : List Guess} (h : ∃ x ∈ l, x.turnIndex = t) :
    upsertByTurn t upd n l = l.map (updAt t upd) := by
  unfold upsertByTurn
  obtain ⟨x, hx, hxt⟩ := h
  obtain ⟨y, hy⟩ :=
    @find?_eq_some_of_exists (fun g => g.turnIndex == t) l ⟨x, hx, by simpa using hxt⟩
  rw [hy]

/-- C2: `handleResultComputed`'s merge stores the event's breaches/signals as
the entry's result.  When an entry at the event's turn index exists, every
entry at that turn index gets the event's result and `pending: false` with no
entry added or dropped; when none exists, a new non-pending entry at that
turn index is appended. -/
theorem mergeResult_update_or_append (e : ResultEvent) (d : List String)
    (now : Nat) (prev : List Guess) :
    (∀ sr, e.signedResult = some sr →
      resultOfEvent e = some { breached := sr.breaches, injured := sr.signals }) ∧
    ((∃ g ∈ prev, g.turnIndex = e.turnIndex) →
      (mergeResult e d now prev).length = prev.length ∧
      ∀ g ∈ mergeResult e d now prev, g.turnIndex = e.turnIndex →
        (g.result = resultOfEvent e ∧ g.pending = some false ∧ g.digits = d)) ∧
    ((∀ g ∈ prev, g.turnIndex ≠ e.turnIndex) →
      mergeResult e d now prev = prev ++
        [{ turnIndex := e.turnIndex, digits := d, result := resultOfEvent e,
           timestamp := now, txHash := none, pending := some false }]) := by
  refine ⟨?_, ?_, ?_⟩
  · intro sr h
    simp [resultOfEvent, h]
  · intro h
    have heq : mergeResult e d now prev =
        prev.map (updAt e.turnIndex
          (fun g => { g with digits := d, result := resultOfEvent e,
                             pending := some false })) :=
      upsertByTurn_of_some h
    constructor
    · rw [heq, List.length_map]
    · intro g hg hgt
      rw [heq] at hg
      obtain ⟨y, _, hcase⟩ := mem_map_updAt hg
      rcases hcase with ⟨_, rfl⟩ | ⟨hpf, rfl⟩
      · exact ⟨rfl, rfl, rfl⟩
      · exact absurd hgt (by simpa using hpf)
  · intro h
    exact upsertByTurn_of_none h

/-- Witness for C2 at a concrete input: a list with an entry at turn 0
receives the event's result `{breached := 1, injured := 2}`. -/
theorem mergeResult_update_or_append_witness :
    (mergeResult
        { roomId := "1", turnIndex := 0, submitter := "0xa", isWin := false,
          signedResult := some { breaches := 1, signals := 2, signature := "" } }
        ["5", "6", "7", "8"] 9
        [{ turnIndex := 0, digits := ["5", "6", "7", "8"], timestamp := 1,
           pending := some true }]).length = 1 :=
  ((mergeResult_update_or_append
      { roomId := "1", turnIndex := 0, submitter := "0xa", isWin := false,
        signedResult := some { breaches := 1, signals := 2, signature := "" } }
      ["5", "6", "7", "8"] 9
      [{ turnIndex := 0, digits := ["5", "6", "7", "8"], timestamp := 1,
         pending := some true }]).2.1
    ⟨{ turnIndex := 0, digits := ["5", "6", "7", "8"], timestamp := 1,
       pending := some true }, by decide, rfl⟩).1

/-! ### C3: what survives of "confirmed is terminal" -/

lemma confirmed_step (t : Nat) (r : GuessResult) (op : ReconcilerOp)
    (l : List Guess) (hop : opSafeFor t r op) (hl : confirmedAt t r l) :
    confirmedAt t r (applyOp l op) := by
  cases op with
  | add g =>
    intro x hx hxt
    rcases mem_upsertByTurn hx with ⟨y, hy, hcase⟩ | rfl
    · rcases hcase with ⟨_, rfl⟩ | ⟨_, rfl⟩
      · exact absurd hxt (by simpa [spreadMerge] using hop)
      · exact hl _ hy hxt
    · exact absurd hxt hop
  | mergeMain e d now =>
    intro x hx hxt
    rcases mem_upsertByTurn hx with ⟨y, hy, hcase⟩ | rfl
    · rcases hcase with ⟨hbeq, rfl⟩ | ⟨_, rfl⟩
      · have het : e.turnIndex = t := by
          have h1 : y.turnIndex = e.turnIndex := by simpa using hbeq
          have h2 : y.turnIndex = t := hxt
          omega
        exact ⟨hop het, rfl⟩
      · exact hl _ hy hxt
    · have het : e.turnIndex = t := hxt
      exact ⟨hop het, rfl⟩
  | mergeFallback e now =>
    intro x hx hxt
    rcases mem_upsertByTurn hx with ⟨y, hy, hcase⟩ | rfl
    · rcases hcase with ⟨hbeq, rfl⟩ | ⟨_, rfl⟩
      · have het : e.turnIndex = t := by
          have h1 : y.turnIndex = e.turnIndex := by simpa using hbeq
          have h2 : y.turnIndex = t := hxt
          omega
        exact ⟨hop het, rfl⟩
      · exact hl _ hy hxt
    · have het : e.turnIndex = t := hxt
      exact ⟨hop het, rfl⟩
  | remove t' =>
    intro x hx hxt
    exact hl x (List.mem_of_mem_filter hx) hxt

/-- C3 (amended): once an entry at turn `t` is confirmed with result `r`,
any further operation sequence that never `addGuess`es at turn `t` and whose
result events for turn `t` all carry exactly `r` keeps every remaining entry
at turn `t` confirmed with result `r`. -/
theorem confirmed_preserved (t : Nat) (r : GuessResult)
    (ops : List ReconcilerOp) (l : List Guess)
    (hops : ∀ op ∈ ops, opSafeFor t r op) (hl : confirmedAt t r l) :
    confirmedAt t r (applyOps l ops) := by
  induction ops generalizing l with
  | nil => exact hl
  | cons op ops ih =>
    exact ih _ (fun o ho => hops o (List.mem_cons_of_mem _ ho))
      (confirmed_step t r op l (hops op (List.mem_cons_self _ _)) hl)

/-- A `ResultComputed` event for room 1, turn 0, with result
`{breaches := 1, signals := 2}`. -/
def sampleEvent : ResultEvent :=
  { roomId := "1", turnIndex := 0, submitter := "0xa", isWin := false,
    signedResult := some { breaches := 1, signals := 2, signature := "" } }

/-- The optimistic pending guess `handleSubmit` would add at turn 0. -/
def sampleOptimistic : Guess :=
  { turnIndex := 0, digits := ["5", "6", "7", "8"], timestamp := 1,
    pending := some true }

/-- A confirmed entry at turn 0 as produced by the `ResultComputed` merge. -/
def sampleConfirmed : Guess :=
  { turnIndex := 0, digits := ["5", "6", "7", "8"],
    result := some { breached := 1, injured := 2 }, timestamp := 1,
    txHash := none, pending := some false }

/-- C3 counterexample: after an optimistic add and a result merge, the turn-0
entry is confirmed (result set, non-pending); a further `addGuess` of a
pending guess at turn 0 — a legal reconciler operation — flips it back to
`pending: true` while its result is still set, so confirmed is not terminal
under all operation sequences. -/
theorem confirmed_not_terminal_cex :
    (∀ g ∈ applyOps []
        [ReconcilerOp.add sampleOptimistic,
         ReconcilerOp.mergeMain sampleEvent ["5", "6", "7", "8"] 9],
      g.result = some { breached := 1, injured := 2 } ∧ g.pending = some false) ∧
    (∃ g ∈ applyOps []
        [ReconcilerOp.add sampleOptimistic,
         ReconcilerOp.mergeMain sampleEvent ["5", "6", "7", "8"] 9,
         ReconcilerOp.add sampleOptimistic],
      g.result = some { breached := 1, injured := 2 } ∧ g.pending = some true) := by
  decide

/-- Witness for C3 (amended) at a concrete input: a `removeGuess` of another
turn index keeps the confirmed turn-0 entry confirmed. -/
theorem confirmed_preserved_witness :
    sampleConfirmed.result = some { breached := 1, injured := 2 } ∧
    sampleConfirmed.pending = some false :=
  confirmed_preserved 0 { breached := 1, injured := 2 }
    [ReconcilerOp.remove 3] [sampleConfirmed]
    (fun op hop => by
      rcases List.mem_singleton.mp hop with rfl
      trivial)
    (fun g hg hgt => by
      rcases List.mem_singleton.mp hg with rfl
      exact ⟨rfl, rfl⟩)
    sampleConfirmed (by decide) rfl

/-! ### C4: when `setCurrentRoom` clears the guess list -/

/-- C4 counterexample: switching the active room from room "1" to the
different room "2" does NOT clear the accumulated guess list — `setCurrentRoom`
only clears when the new id is null/empty. -/
theorem setCurrentRoom_switch_keeps_guesses_cex :
    (setCurrentRoom (some "2")
      { currentRoomId := some "1", roomGuesses := [sampleOptimistic] }).roomGuesses
      = [sampleOptimistic] ∧
    [sampleOptimistic] ≠ ([] : List Guess) := by
  decide

/-- C4 (amended): `setCurrentRoom` always records the new target and clears
the accumulated guesses exactly when the new room id is none (or the empty
string, which is equally falsy); switching to a different non-empty room id
keeps the accumulated guesses. -/
theorem setCurrentRoom_clears_only_on_none (s : RoomViewState) (r : String)
    (h : r ≠ "") :
    (setCurrentRoom none s).roomGuesses = [] ∧
    (setCurrentRoom (some "") s).roomGuesses = [] ∧
    (setCurrentRoom (some r) s).roomGuesses = s.roomGuesses ∧
    (setCurrentRoom (some r) s).currentRoomId = some r := by
  refine ⟨rfl, rfl, ?_, rfl⟩
  have hf : roomIdFalsy (some r) = false := by
    simp [roomIdFalsy, h]
  simp [setCurrentRoom, hf]

/-- Witness for C4 (amended) at a concrete input: switching to room "2" keeps
the stored guess. -/
theorem setCurrentRoom_clears_only_on_none_witness :
    (setCurrentRoom (some "2")
      { currentRoomId := some "1", roomGuesses := [sampleOptimistic] }).roomGuesses
      = [sampleOptimistic] :=
  (setCurrentRoom_clears_only_on_none
    { currentRoomId := some "1", roomGuesses := [sampleOptimistic] } "2"
    (by decide)).2.2.1

/-! ### C5: rollback then re-add yields a fresh pending entry -/

/-- C5: `removeGuess(t)` deletes every entry at turn `t` unconditionally, and
an immediately following `addGuess` of a pending, result-free guess at turn
`t` appends exactly that fresh entry, so every entry at turn `t` afterwards
is pending with no residual result. -/
theorem removeGuess_then_addGuess_fresh (prev : List Guess) (t : Nat)
    (g : Guess) (hgt : g.turnIndex = t) (hp : g.pending = some true)
    (hr : g.result = none) :
    (∀ x ∈ removeGuess t prev, x.turnIndex ≠ t) ∧
    addGuess g (removeGuess t prev) = removeGuess t prev ++ [g] ∧
    (∀ x ∈ addGuess g (removeGuess t prev), x.turnIndex = t →
      (x.pending = some true ∧ x.result = none)) := by
  have hrem : ∀ x ∈ removeGuess t prev, x.turnIndex ≠ t := by
    intro x hx
    have := (List.mem_filter.mp hx).2
    simpa using this
  have happ : addGuess g (removeGuess t prev) = removeGuess t prev ++ [g] := by
    unfold addGuess
    rw [hgt]
    exact upsertByTurn_of_none hrem
  refine ⟨hrem, happ, ?_⟩
  intro x hx hxt
  rw [happ] at hx
  rcases List.mem_append.mp hx with h | h
  · exact absurd hxt (hrem x h)
  · rcases List.mem_singleton.mp h with rfl
    exact ⟨hp, hr⟩

/-- Witness for C5 at a concrete input: rolling back turn 0 over a confirmed
entry and re-adding the optimistic guess appends it to the emptied list. -/
theorem removeGuess_then_addGuess_fresh_witness :
    addGuess sampleOptimistic (removeGuess 0 [sampleConfirmed]) =
      removeGuess 0 [sampleConfirmed] ++ [sampleOptimistic] :=
  (removeGuess_then_addGuess_fresh [sampleConfirmed] 0 sampleOptimistic
    rfl rfl rfl).2.1

/-! ### C6: turn attribution and whose-turn computation -/

/-- C6: the current turn index is the number of recorded guesses; a guess is
attributed to the creator exactly when its turn index is even and to the
opponent exactly when it is odd (from either player's view); and the player
to move is the creator if and only if the guess count is even. -/
theorem turn_parity_partition (c : Bool) (l : List Guess) :
    currentTurnIndex l = l.length ∧
    (∀ g : Guess, g ∈ attributedToCreator c l ↔ (g ∈ l ∧ g.turnIndex % 2 = 0)) ∧
    (∀ g : Guess, g ∈ attributedToOpponent c l ↔ (g ∈ l ∧ g.turnIndex % 2 = 1)) ∧
    (isPlayerTurn c l = true ↔ ((l.length % 2 = 0) ↔ c = true)) := by
  refine ⟨rfl, ?_, ?_, ?_⟩
  · intro g
    cases c <;>
      simp [attributedToCreator, playerGuesses, opponentGuesses, List.mem_filter]
  · intro g
    cases c <;>
      simp [attributedToOpponent, playerGuesses, opponentGuesses, List.mem_filter]
  · cases c <;>
      simp only [isPlayerTurn, currentTurnIndex, Nat.beq_eq_true_eq,
        if_true, if_false, Bool.false_eq_true, iff_false, iff_true,
        Nat.mod_two_ne_zero]

/-- Witness for C6 at a concrete input: with one recorded guess the current
turn index is 1. -/
theorem turn_parity_partition_witness :
    currentTurnIndex [sampleConfirmed] = 1 :=
  (turn_parity_partition true [sampleConfirmed]).1

/-! ### C7: rollback of a failed submission -/

/-- A confirmed opponent guess sitting at turn index 1 while turn 0 was never
recorded — reachable when a `ResultComputed` event for turn 1 arrives on a
list with no turn-0 entry. -/
def sampleTurn1Guess : Guess :=
  { turnIndex := 1, digits := ["9", "8", "7", "6"],
    result := some { breached := 0, injured := 1 }, timestamp := 2,
    pending := some false }

/-- C7 counterexample: when an entry already sits at turn index =
list length (here a confirmed guess at turn 1 on a one-element list), the
failed-submission rollback `removeGuess(currentTurnIndex)` deletes that
pre-existing entry too, so the list is NOT restored to its pre-submission
state. -/
theorem submitRollback_cex :
    submitRollback ["1", "2", "3", "4"] 3 [sampleTurn1Guess] = [] ∧
    ([] : List Guess) ≠ [sampleTurn1Guess] := by
  decide

lemma filter_id_of_all {p : Guess → Bool} :
    ∀ {l : List Guess}, (∀ x ∈ l, p x = true) → l.filter p = l := by
  intro l h
  induction l with
  | nil => rfl
  | cons a l ih =>
    rw [List.filter_cons, if_pos (h a (by simp))]
    rw [ih (fun x hx => h x (by simp [hx]))]

/-- C7 (amended): the rollback removes exactly the entries at the current
turn index, so whenever no entry with turn index equal to the list length
exists before submission — in particular whenever recorded turn indices are
`0 .. length-1`, and for the first submission on an empty list — a failed
submission restores the guess list to its exact pre-submission state. -/
theorem submitRollback_restores (digits : List String) (ts : Nat)
    (l : List Guess) (h : ∀ g ∈ l, g.turnIndex ≠ l.length) :
    submitRollback digits ts l = l := by
  unfold submitRollback
  have happ : addGuess (optimisticGuess digits ts l) l =
      l ++ [optimisticGuess digits ts l] := by
    unfold addGuess
    have : (optimisticGuess digits ts l).turnIndex = l.length := rfl
    rw [this]
    exact upsertByTurn_of_none (by
      intro x hx
      exact h x hx)
  rw [happ]
  unfold removeGuess currentTurnIndex
  rw [List.filter_append]
  have h1 : l.filter (fun g => g.turnIndex != l.length) = l :=
    filter_id_of_all (fun x hx => by simpa using h x hx)
  have h2 : [optimisticGuess digits ts l].filter
      (fun g => g.turnIndex != l.length) = [] := by
    rw [List.filter_cons]
    have : ((optimisticGuess digits ts l).turnIndex != l.length) = false := by
      simp [optimisticGuess, currentTurnIndex]
    rw [if_neg (by simp [this])]
    rfl
  rw [h1, h2, List.append_nil]

/-- Witness for C7 (amended): a failed first submission on an empty guess
list returns the list to empty. -/
theorem submitRollback_restores_witness :
    submitRollback ["1", "2", "3", "4"] 3 [] = [] :=
  submitRollback_restores ["1", "2", "3", "4"] 3 []
    (fun g hg => absurd hg (List.not_mem_nil g))

/-! ### C8: the 30-attempt, 1-second receipt wait -/

lemma pollForReceipt_eq_none_iff {α : Type} (poll : Nat → Option α) :
    ∀ (fuel start : Nat),
      (pollForReceipt poll start fuel = none ↔
        ∀ i < fuel, poll (start + i) = none) := by
  intro fuel
  induction fuel with
  | zero =>
    intro start
    simp [pollForReceipt]
  | succ n ih =>
    intro start
    unfold pollForReceipt
    cases hp : poll start with
    | some r =>
      simp only [iff_false]
      constructor
      · intro h
        exact absurd h (by simp)
      all_goals
        intro h
        have := h 0 (by omega)
        rw [Nat.add_zero] at this
        rw [hp] at this
        exact absurd this (by simp)
    | none =>
      rw [ih (start + 1)]
      constructor
      · intro h i hi
        cases i with
        | zero => simpa using hp
        | succ j =>
          have := h j (by omega)
          have harr : start + 1 + j = start + (j + 1) := by omega
          rw [harr] at this
          exact this
      · intro h i hi
        have := h (i + 1) (by omega)
        have harr : start + (i + 1) = start + 1 + i := by omega
        rw [harr] at this
        exact this

/-- C8: in `createRoom`, `joinRoom` and `submitGuess` alike, the receipt is
polled for at most 30 attempts at a fixed 1000 ms interval, and the error
"Transaction receipt not found after timeout" is thrown if and only if every
one of those 30 polls reports no receipt. -/
theorem receipt_wait_timeout_iff {α : Type} (poll : Nat → Option α) :
    (createRoomAwaitReceipt poll =
        Except.error "Transaction receipt not found after timeout" ↔
      ∀ i < 30, poll i = none) ∧
    (joinRoomAwaitReceipt poll =
        Except.error "Transaction receipt not found after timeout" ↔
      ∀ i < 30, poll i = none) ∧
    (submitGuessAwaitReceipt poll =
        Except.error "Transaction receipt not found after timeout" ↔
      ∀ i < 30, poll i = none) ∧
    createRoomMaxAttempts = 30 ∧ joinRoomMaxAttempts = 30 ∧
    submitGuessMaxAttempts = 30 ∧ createRoomPollIntervalMs = 1000 ∧
    joinRoomPollIntervalMs = 1000 ∧ submitGuessPollIntervalMs = 1000 := by
  have key : ∀ m : Nat, (awaitConfirmation poll m =
      Except.error "Transaction receipt not found after timeout" ↔
      ∀ i < m, poll i = none) := by
    intro m
    unfold awaitConfirmation
    cases hp : pollForReceipt poll 0 m with
    | some r =>
      simp only [iff_false]
      constructor
      · intro h
        exact absurd h (by simp)
      all_goals
        intro h
        have := (pollForReceipt_eq_none_iff poll m 0).mpr
          (fun i hi => by simpa using h i hi)
        rw [hp] at this
        exact absurd this (by simp)
    | none =>
      have hall := (pollForReceipt_eq_none_iff poll m 0).mp hp
      constructor
      · intro _ i hi
        simpa using hall i hi
      · intro _
        rfl
  exact ⟨key 30, key 30, key 30, rfl, rfl, rfl, rfl, rfl, rfl⟩

/-- Witness for C8 at a concrete input: a provider that never returns a
receipt makes `createRoom`'s wait throw the timeout error. -/
theorem receipt_wait_timeout_iff_witness :
    createRoomAwaitReceipt (fun _ => (none : Option Nat)) =
      Except.error "Transaction receipt not found after timeout" :=
  (receipt_wait_timeout_iff (fun _ => (none : Option Nat))).1.mpr
    (fun _ _ => rfl)

/-! ### C9: `stopListening` halts the poller for good -/

lemma firesFrom_keeps_stopped (s : PollerState) (h : s.isListening = false) :
    ∀ n, (firesFrom s n).isListening = false := by
  intro n
  induction n with
  | zero => exact h
  | succ m ih =>
    unfold firesFrom timerFire
    rw [if_neg (by simp [ih])]
    exact ih

lemma stopListening_isListening (s : PollerState) :
    (stopListening s).isListening = false := by
  unfold stopListening
  by_cases h : s.isListening = false
  · rw [if_pos h]
    exact h
  · rw [if_neg h]

/-- C9: after `stopListening()` the liveness flag is down and the recurring
interval is cleared; and for every later (stale) firing of the timer
callback, the top-of-cycle `isListening` check makes it a no-op — no poll
cycle runs, so no event handler is ever invoked again. -/
theorem stopListening_halts (s : PollerState) (n : Nat)
    (h : s.isListening = true) :
    (stopListening s).isListening = false ∧
    (stopListening s).timerActive = false ∧
    (timerFire (firesFrom (stopListening s) n)).2 = false := by
  refine ⟨stopListening_isListening s, ?_, ?_⟩
  · unfold stopListening
    rw [if_neg (by simp [h])]
  · have hoff := firesFrom_keeps_stopped (stopListening s)
      (stopListening_isListening s) n
    unfold timerFire
    rw [if_neg (by simp [hoff])]

/-- Witness for C9 at a concrete input: stopping a live poller with an
active timer, then letting the stale callback fire twice, never runs a poll
cycle. -/
theorem stopListening_halts_witness :
    (timerFire (firesFrom
      (stopListening { isListening := true, timerActive := true }) 2)).2 = false :=
  (stopListening_halts { isListening := true, timerActive := true } 2 rfl).2.2

/-! ### C10: invitation link round-trip -/

lemma takeWhile_all {p : Char → Bool} :
    ∀ {l : List Char}, (∀ x ∈ l, p x = true) → l.takeWhile p = l := by
  intro l h
  induction l with
  | nil => rfl
  | cons a l ih =>
    rw [List.takeWhile_cons, if_pos (h a (by simp))]
    rw [ih (fun x hx => h x (by simp [hx]))]

lemma dropWhile_append_all {p : Char → Bool} :
    ∀ {l₁ l₂ : List Char}, (∀ x ∈ l₁, p x = true) →
      (l₁ ++ l₂).dropWhile p = l₂.dropWhile p := by
  intro l₁ l₂ h
  induction l₁ with
  | nil => rfl
  | cons a l ih =>
    rw [List.cons_append, List.dropWhile_cons, if_pos (h a (by simp))]
    exact ih (fun x hx => h x (by simp [hx]))

lemma splitOnChar_no_sep {c : Char} :
    ∀ {l : List Char}, (∀ x ∈ l, x ≠ c) → splitOnChar c l = [l] := by
  intro l h
  induction l with
  | nil => rfl
  | cons a l ih =>
    unfold splitOnChar
    rw [if_neg (h a (by simp))]
    rw [ih (fun x hx => h x (by simp [hx]))]

/-- C10: for every room id (a string free of the query-reserved characters
`&`, `=`, `#` — in particular every decimal id the app produces) and every
origin without a `?`, the invitation link `<origin>/join?room=<id>` built by
`copyInvitationLink` round-trips: the join page's query-parameter read
pre-fills the room id field with exactly that id. -/
theorem invitation_link_roundtrip (origin r : List Char)
    (ho : ∀ c ∈ origin, c ≠ '?')
    (hr : ∀ c ∈ r, c ≠ '&' ∧ c ≠ '=' ∧ c ≠ '#') :
    joinRoomPrefill (buildInvitationLink origin r) = some r := by
  have hquery : queryOf (buildInvitationLink origin r) =
      'r' :: 'o' :: 'o' :: 'm' :: '=' :: r := by
    unfold queryOf buildInvitationLink
    rw [List.append_assoc]
    rw [dropWhile_append_all (fun x hx => by simpa using ho x hx)]
    have hd : ("/join?room=".data ++ r).dropWhile (fun c => c != '?') =
        '?' :: 'r' :: 'o' :: 'o' :: 'm' :: '=' :: r := rfl
    rw [hd]
    have hta : ('r' :: 'o' :: 'o' :: 'm' :: '=' :: r).takeWhile
        (fun c => c != '#') = 'r' :: 'o' :: 'o' :: 'm' :: '=' :: r := by
      apply takeWhile_all
      intro x hx
      simp only [List.mem_cons] at hx
      rcases hx with rfl | rfl | rfl | rfl | rfl | hx
      · decide
      · decide
      · decide
      · decide
      · decide
      · simpa using (hr x hx).2.2
    exact hta
  have hsplit : splitOnChar '&' ('r' :: 'o' :: 'o' :: 'm' :: '=' :: r) =
      ['r' :: 'o' :: 'o' :: 'm' :: '=' :: r] := by
    apply splitOnChar_no_sep
    intro x hx
    simp only [List.mem_cons] at hx
    rcases hx with rfl | rfl | rfl | rfl | rfl | hx
    · decide
    · decide
    · decide
    · decide
    · decide
    · exact (hr x hx).1
  have hk : splitKV ('r' :: 'o' :: 'o' :: 'm' :: '=' :: r) = ("room".data, r) := by
    unfold splitKV
    have h1 : ('r' :: 'o' :: 'o' :: 'm' :: '=' :: r).takeWhile
        (fun c => c != '=') = "room".data := rfl
    have h2 : ('r' :: 'o' :: 'o' :: 'm' :: '=' :: r).dropWhile
        (fun c => c != '=') = '=' :: r := rfl
    rw [h1, h2]
    rfl
  have hget : getParam ("room".data) ('r' :: 'o' :: 'o' :: 'm' :: '=' :: r) =
      some r := by
    unfold getParam
    rw [hsplit]
    have hf : (let kv := splitKV ('r' :: 'o' :: 'o' :: 'm' :: '=' :: r)
          if kv.1 = "room".data then some kv.2 else none) = some r := by
      rw [hk]
      rfl
    rw [List.findSome?_cons_of_isSome _ (by rw [hf]; rfl)]
    exact hf
  unfold joinRoomPrefill
  rw [hquery, hget]
  rfl

/-- Witness for C10 at a concrete input: the link for room 42 on
`https://example.com` pre-fills the join page with "42". -/
theorem invitation_link_roundtrip_witness :
    joinRoomPrefill
      (buildInvitationLink ("https://example.com".data) ("42".data)) =
      some ("42".data) :=
  invitation_link_roundtrip "https://example.com".data "42".data
    (by decide) (by decide)
